import Mathlib

/-!
Shallow embedding of the portfolio ledger core of TradingSimSuite:
`portfolio_manager.py` (load_portfolio / save_portfolio /
get_current_portfolio_value) and the `/buy`, `/sell` route handlers
`buy_stock`, `sell_stock` of `main.py`.

Money and prices are modelled as exact rationals (`ℚ`), share counts as
integers (`ℤ`, the type FastAPI coerces the query parameter to).  The
process-global mutable state (`start_capital`, `portfolio`, the file
`portfolio.json`) is threaded explicitly; every operation returns the
HTTP-level outcome together with the state left behind, so that a failure
raised after a mutation is visible as an error result with a changed state.
The external world (the `data/{T}.csv` cache and the two `yf.download`
call shapes) is a record of oracle functions.
-/

set_option maxHeartbeats 1000000

/-- Python's `str.upper()` on the ASCII ticker strings the system handles. -/
def pyUpper (s : String) : String := String.mk (s.data.map Char.toUpper)

/-- A JSON value, as far as `portfolio.json` handling needs it: numbers,
strings, arrays and objects (an object is its ordered field list, as
`json.load` materialises a dict). -/
inductive Json where
  | num (val : ℚ)
  | str (val : String)
  | arr (elems : List Json)
  | obj (fields : List (String × Json))

/-- `dict.get(key, default)` on a parsed JSON object's field list. -/
def jsonGetD (fields : List (String × Json)) (key : String) (d : Json) : Json :=
  match fields with
  | [] => d
  | f :: rest => if f.1 == key then f.2 else jsonGetD rest key d

/-- The in-memory portfolio: a Python dict from ticker to share count,
modelled as its insertion-ordered association list. -/
abbrev Portfolio := List (String × ℤ)

/-- `portfolio.get(t, d)`. -/
def pfGetD (pf : Portfolio) (t : String) (d : ℤ) : ℤ :=
  match pf with
  | [] => d
  | e :: rest => if e.1 == t then e.2 else pfGetD rest t d

/-- `t in portfolio`. -/
def pfMem (pf : Portfolio) (t : String) : Bool :=
  match pf with
  | [] => false
  | e :: rest => e.1 == t || pfMem rest t

/-- `portfolio[t] = v`: overwrite in place, append when the key is new
(Python dict insertion order). -/
def pfSet (pf : Portfolio) (t : String) (v : ℤ) : Portfolio :=
  match pf with
  | [] => [(t, v)]
  | e :: rest => if e.1 == t then (t, v) :: rest else e :: pfSet rest t v

/-- `del portfolio[t]`. -/
def pfDel (pf : Portfolio) (t : String) : Portfolio :=
  pf.filter (fun e => !(e.1 == t))

/-- The JSON value `json.dump` writes for the portfolio dict. -/
def pfToJson (pf : Portfolio) : Json :=
  Json.obj (pf.map (fun e => (e.1, Json.num (e.2 : ℚ))))

/-- The single JSON object `save_portfolio` writes to `portfolio.json`. -/
def encodeRecord (start_capital : ℚ) (pf : Portfolio) : Json :=
  Json.obj [("start_capital", Json.num start_capital), ("portfolio", pfToJson pf)]

/-- Contents of `portfolio.json`: `none` when the file is missing,
`some (Except.error ())` when it is present but `json.load` cannot decode
it, `some (Except.ok j)` when it decodes to the JSON value `j`. -/
abbrev FileState := Option (Except Unit Json)

/-- The failure outcomes the embedded operations can raise. -/
inductive Err where
  | notFetched
  | tickerNotFound
  | insufficientFunds
  | insufficientShares
  | notFound (ticker : String)
  | indexError
  | attributeError
deriving DecidableEq

/-- External collaborators: `dataFiles t` is `data/{t}.csv` read as its
`Close` column (`none`: file absent, `some []`: empty frame);
`quoteDaily t` is the latest close of `yf.download(t)` (`none`: empty
result), used by `sell_stock`; `quoteMinute t` is the latest close of
`yf.download(t, period="1d", interval="1m")`, used by
`get_current_portfolio_value`. -/
structure Env where
  dataFiles : String → Option (List ℚ)
  quoteDaily : String → Option ℚ
  quoteMinute : String → Option ℚ

/-- The process-global mutable state of `main.py`: the module globals
`start_capital` and `portfolio`, plus the persisted `portfolio.json`. -/
structure AppState where
  start_capital : ℚ
  portfolio : Portfolio
  store : FileState

/-- `portfolio_manager.save_portfolio`: overwrite `portfolio.json` with the
record object; the resulting file state decodes back to exactly that
object. -/
def save_portfolio (start_capital : ℚ) (pf : Portfolio) : FileState :=
  some (Except.ok (encodeRecord start_capital pf))

/-- `portfolio_manager.load_portfolio`: return the pair of Python values
`(start_capital, portfolio)` together with the file state it leaves
behind.  Missing file or undecodable content falls back to the defaults
`(1000000, {})` and immediately persists them; decodable content that is
not a JSON object makes `saved_data.get` raise `AttributeError`, which is
not caught. -/
def load_portfolio (file : FileState) : Except Err ((Json × Json) × FileState) :=
  match file with
  | none =>
      Except.ok ((Json.num 1000000, Json.obj []), save_portfolio 1000000 [])
  | some (Except.error _) =>
      Except.ok ((Json.num 1000000, Json.obj []), save_portfolio 1000000 [])
  | some (Except.ok (Json.obj fields)) =>
      Except.ok ((jsonGetD fields "start_capital" (Json.num 1000000),
                  jsonGetD fields "portfolio" (Json.obj [])), file)
  | some (Except.ok _) => Except.error Err.attributeError

/-- `portfolio_manager.get_current_portfolio_value`: walk the holdings in
order, fetch a 1-minute quote for each ticker, abort with a 404
`Ticker ... not found` on the first empty result, otherwise sum
`price * quantity`. -/
def get_current_portfolio_value (env : Env) : Portfolio → Except Err ℚ
  | [] => Except.ok 0
  | e :: rest =>
    match env.quoteMinute e.1 with
    | none => Except.error (Err.notFound e.1)
    | some current_price =>
      match get_current_portfolio_value env rest with
      | Except.error err => Except.error err
      | Except.ok rv => Except.ok (current_price * (e.2 : ℚ) + rv)

/-- `main.buy_stock`: the `/buy` handler.  Returns the HTTP outcome (on
success the triple `remaining_capital`, `portfolio`, `total_value`)
together with the final global state.  Note the order of effects in the
source: the capital/portfolio mutation and `save_portfolio` happen before
`get_current_portfolio_value` is called, so a valuation failure is
reported as an error on an already-mutated state. -/
def buy_stock (env : Env) (s : AppState) (ticker : String) (quantity : ℤ) :
    Except Err (ℚ × Portfolio × ℚ) × AppState :=
  let t := pyUpper ticker
  match env.dataFiles t with
  | none => (Except.error Err.notFetched, s)
  | some closes =>
    match closes.getLast? with
    | none => (Except.error Err.tickerNotFound, s)
    | some current_price =>
      let total_cost := current_price * (quantity : ℚ)
      if total_cost > s.start_capital then
        (Except.error Err.insufficientFunds, s)
      else
        let start_capital := s.start_capital - total_cost
        let pf := pfSet s.portfolio t (pfGetD s.portfolio t 0 + quantity)
        let s1 : AppState :=
          { start_capital := start_capital, portfolio := pf,
            store := save_portfolio start_capital pf }
        match get_current_portfolio_value env pf with
        | Except.error err => (Except.error err, s1)
        | Except.ok total_value => (Except.ok (start_capital, pf, total_value), s1)

/-- `main.sell_stock`: the `/sell` handler.  The `Insufficient shares`
check mirrors `ticker not in portfolio or portfolio[ticker] < quantity`;
an empty `yf.download` makes `iloc[-1]` raise (modelled as
`Err.indexError`); as in `buy_stock`, mutation and persist precede the
valuation call. -/
def sell_stock (env : Env) (s : AppState) (ticker : String) (quantity : ℤ) :
    Except Err (ℚ × Portfolio × ℚ) × AppState :=
  let t := pyUpper ticker
  if pfMem s.portfolio t = false ∨ pfGetD s.portfolio t 0 < quantity then
    (Except.error Err.insufficientShares, s)
  else
    match env.quoteDaily t with
    | none => (Except.error Err.indexError, s)
    | some current_price =>
      let total_revenue := current_price * (quantity : ℚ)
      let start_capital := s.start_capital + total_revenue
      let q1 := pfGetD s.portfolio t 0 - quantity
      let pf1 := pfSet s.portfolio t q1
      let pf := if q1 = 0 then pfDel pf1 t else pf1
      let s1 : AppState :=
        { start_capital := start_capital, portfolio := pf,
          store := save_portfolio start_capital pf }
      match get_current_portfolio_value env pf with
      | Except.error err => (Except.error err, s1)
      | Except.ok total_value => (Except.ok (start_capital, pf, total_value), s1)

/-- One `/buy` or `/sell` request, with its ticker and quantity. -/
inductive TradeOp where
  | buyOp (ticker : String) (quantity : ℤ)
  | sellOp (ticker : String) (quantity : ℤ)

/-- The state left behind by one request (its HTTP outcome discarded). -/
def applyOp (env : Env) (s : AppState) : TradeOp → AppState
  | TradeOp.buyOp t q => (buy_stock env s t q).2
  | TradeOp.sellOp t q => (sell_stock env s t q).2

/-- Run a sequence of requests left to right. -/
def runOps (env : Env) (s : AppState) : List TradeOp → AppState
  | [] => s
  | op :: rest => runOps env (applyOp env s op) rest

/-- The quantity argument of a request. -/
def opQuantity : TradeOp → ℤ
  | TradeOp.buyOp _ q => q
  | TradeOp.sellOp _ q => q

/-- The well-formedness invariant claimed of the Ledger: non-negative cash
and strictly positive holdings. -/
def wfLedger (s : AppState) : Prop :=
  0 ≤ s.start_capital ∧ ∀ e ∈ s.portfolio, 0 < e.2

/-- The price oracles never quote a negative close. -/
def nonnegPrices (env : Env) : Prop :=
  (∀ t p, env.quoteDaily t = some p → 0 ≤ p) ∧
  (∀ t closes c, env.dataFiles t = some closes → c ∈ closes → 0 ≤ c)

/-- Spec-side reading of a valuation total: the sum over the holdings of
`latest 1-minute close * quantity` (0 standing in for an absent quote). -/
def valTotal (env : Env) (pf : Portfolio) : ℚ :=
  pf.foldr (fun e acc => (env.quoteMinute e.1).getD 0 * (e.2 : ℚ) + acc) 0

/-- Typed reading of a persisted quantity: a JSON number that is an
integer. -/
def decodeQty (j : Json) : Option ℤ :=
  match j with
  | Json.num q => if q.den = 1 then some q.num else none
  | _ => none

/-- Typed reading of a persisted portfolio field list. -/
def decodeFields : List (String × Json) → Option Portfolio
  | [] => some []
  | f :: rest =>
    match decodeQty f.2 with
    | none => none
    | some n =>
      match decodeFields rest with
      | none => none
      | some pf => some ((f.1, n) :: pf)

/-- Typed reading of a persisted portfolio value. -/
def decodePortfolio (j : Json) : Option Portfolio :=
  match j with
  | Json.obj fields => decodeFields fields
  | _ => none

/-- Typed reading of a persisted cash value. -/
def decodeCash (j : Json) : Option ℚ :=
  match j with
  | Json.num q => some q
  | _ => none

/-- A well-formed Ledger in the sense of the spec's data model: decimal
cash, holdings a mapping (distinct keys) from uppercase-normalized symbols
to strictly positive integer quantities. -/
def wfRecord (c : ℚ) (pf : Portfolio) : Prop :=
  0 ≤ c ∧ (∀ e ∈ pf, 0 < e.2 ∧ pyUpper e.1 = e.1) ∧ (pf.map (fun e => e.1)).Nodup

/-- Concrete environment: AAPL cached at close 150, daily quote 160,
1-minute quote 150; every other symbol unknown. -/
def envA : Env where
  dataFiles := fun t => if t = "AAPL" then some [150] else none
  quoteDaily := fun t => if t = "AAPL" then some 160 else none
  quoteMinute := fun t => if t = "AAPL" then some 150 else none

/-- Concrete environment: AAPL cached at close 150 with a working
1-minute quote, but the held symbol BAD has no quote at all. -/
def envB : Env where
  dataFiles := fun t => if t = "AAPL" then some [150] else none
  quoteDaily := fun _ => none
  quoteMinute := fun t => if t = "AAPL" then some 150 else none

/-- Fresh ledger: cash 1000000, no holdings, nothing persisted yet. -/
def stateA : AppState where
  start_capital := 1000000
  portfolio := []
  store := none

/-- Ledger holding 5 shares of BAD with cash 1000000. -/
def stateB : AppState where
  start_capital := 1000000
  portfolio := [("BAD", 5)]
  store := none

/-- Ledger with only 100 in cash and no holdings. -/
def stateC : AppState where
  start_capital := 100
  portfolio := []
  store := none

theorem mem_of_getLast?_eq_some {α : Type} {l : List α} {a : α}
    (h : l.getLast? = some a) : a ∈ l := by
  rcases List.mem_getLast?_eq_getLast (Option.mem_def.mpr h) with ⟨hne, rfl⟩
  exact List.getLast_mem hne

theorem pfGetD_nonneg {pf : Portfolio} (t : String)
    (hpf : ∀ e ∈ pf, 0 < e.2) : 0 ≤ pfGetD pf t 0 := by
  induction pf with
  | nil => simp [pfGetD]
  | cons x rest ih =>
    unfold pfGetD
    by_cases hx : (x.1 == t) = true
    · rw [if_pos hx]
      exact le_of_lt (hpf x (List.mem_cons_self _ _))
    · rw [if_neg hx]
      exact ih (fun e he => hpf e (List.mem_cons_of_mem _ he))

theorem pfGetD_pos_of_mem {pf : Portfolio} {t : String}
    (hpf : ∀ e ∈ pf, 0 < e.2) (hmem : pfMem pf t = true) : 0 < pfGetD pf t 0 := by
  induction pf with
  | nil => simp [pfMem] at hmem
  | cons x rest ih =>
    unfold pfGetD
    unfold pfMem at hmem
    by_cases hx : (x.1 == t) = true
    · rw [if_pos hx]
      exact hpf x (List.mem_cons_self _ _)
    · rw [if_neg hx]
      rw [Bool.or_eq_true] at hmem
      rcases hmem with hmem | hmem
      · exact absurd hmem hx
      · exact ih (fun e he => hpf e (List.mem_cons_of_mem _ he)) hmem

theorem mem_pfSet {pf : Portfolio} {t : String} {v : ℤ} {e : String × ℤ}
    (h : e ∈ pfSet pf t v) : e = (t, v) ∨ e ∈ pf := by
  induction pf with
  | nil => simpa [pfSet] using h
  | cons x rest ih =>
    unfold pfSet at h
    by_cases hx : (x.1 == t) = true
    · rw [if_pos hx] at h
      rcases List.mem_cons.mp h with h1 | h1
      · exact Or.inl h1
      · exact Or.inr (List.mem_cons_of_mem _ h1)
    · rw [if_neg hx] at h
      rcases List.mem_cons.mp h with h1 | h1
      · exact Or.inr (h1 ▸ List.mem_cons_self _ _)
      · rcases ih h1 with h2 | h2
        · exact Or.inl h2
        · exact Or.inr (List.mem_cons_of_mem _ h2)

theorem pfGetD_pfSet_self (pf : Portfolio) (t : String) (v d : ℤ) :
    pfGetD (pfSet pf t v) t d = v := by
  induction pf with
  | nil => simp [pfSet, pfGetD]
  | cons x rest ih =>
    unfold pfSet
    by_cases hx : (x.1 == t) = true
    · rw [if_pos hx]
      simp [pfGetD]
    · rw [if_neg hx]
      unfold pfGetD
      rw [if_neg hx]
      exact ih

theorem pfMem_pfSet_self (pf : Portfolio) (t : String) (v : ℤ) :
    pfMem (pfSet pf t v) t = true := by
  induction pf with
  | nil => simp [pfSet, pfMem]
  | cons x rest ih =>
    unfold pfSet
    by_cases hx : (x.1 == t) = true
    · rw [if_pos hx]
      simp [pfMem]
    · rw [if_neg hx]
      unfold pfMem
      rw [ih]
      simp

theorem pfMem_pfDel_self (pf : Portfolio) (t : String) :
    pfMem (pfDel pf t) t = false := by
  unfold pfDel
  induction pf with
  | nil => simp [pfMem]
  | cons x rest ih =>
    rw [List.filter_cons]
    by_cases hx : (x.1 == t) = true
    · rw [if_neg (by simp [hx])]
      exact ih
    · rw [if_pos (by simp [hx])]
      unfold pfMem
      rw [ih]
      simpa using hx

theorem mem_pfDel {pf : Portfolio} {t : String} {e : String × ℤ}
    (h : e ∈ pfDel pf t) : e ∈ pf :=
  (List.mem_filter.mp h).1

theorem gcpv_error_notFound {env : Env} {pf : Portfolio} {e : Err}
    (h : get_current_portfolio_value env pf = Except.error e) :
    ∃ t, e = Err.notFound t := by
  induction pf with
  | nil => simp [get_current_portfolio_value] at h
  | cons x rest ih =>
    unfold get_current_portfolio_value at h
    cases hq : env.quoteMinute x.1 with
    | none =>
      rw [hq] at h
      exact ⟨x.1, ((Except.error.injEq _ _).mp h).symm⟩
    | some p =>
      rw [hq] at h
      cases hr : get_current_portfolio_value env rest with
      | error err =>
        rw [hr] at h
        exact ih (hr.trans (congrArg Except.error ((Except.error.injEq _ _).mp h)))
      | ok rv =>
        rw [hr] at h
        exact absurd h (by simp)

/-- Claim C3: `get_current_portfolio_value` returns exactly the sum over
all held symbols of quantity times that symbol's latest close price; for
empty holdings it returns 0; and if the quote lookup of any single held
symbol fails, the whole call fails with a NotFound error carrying a held
symbol whose lookup failed — the typed error is the function's result (so
it reaches the caller unaltered) and no partial total is returned. -/
theorem claim_C3 (env : Env) (pf : Portfolio) :
    (pf = [] → get_current_portfolio_value env pf = Except.ok 0) ∧
    ((∀ e ∈ pf, (env.quoteMinute e.1).isSome = true) →
       get_current_portfolio_value env pf = Except.ok (valTotal env pf)) ∧
    (∀ e ∈ pf, env.quoteMinute e.1 = none →
       ∃ t, (∃ q, (t, q) ∈ pf) ∧ env.quoteMinute t = none ∧
         get_current_portfolio_value env pf = Except.error (Err.notFound t)) := by
  refine ⟨fun h => by subst h; rfl, ?_, ?_⟩
  · induction pf with
    | nil => intro _; simp [get_current_portfolio_value, valTotal]
    | cons x rest ih =>
      intro hall
      rcases Option.isSome_iff_exists.mp (hall x (List.mem_cons_self _ _)) with ⟨p, hp⟩
      have hrest := ih (fun e he => hall e (List.mem_cons_of_mem _ he))
      simp [get_current_portfolio_value, valTotal, hp, hrest]
  · intro e he hnone
    induction pf with
    | nil => exact absurd he (List.not_mem_nil e)
    | cons x rest ih =>
      cases hq : env.quoteMinute x.1 with
      | none =>
        exact ⟨x.1, ⟨x.2, List.mem_cons_self _ _⟩, hq,
          by simp [get_current_portfolio_value, hq]⟩
      | some p =>
        rcases List.mem_cons.mp he with rfl | he'
        · rw [hnone] at hq; cases hq
        · rcases ih he' with ⟨t, ⟨q0, hq0⟩, ht, hgc⟩
          refine ⟨t, ⟨q0, List.mem_cons_of_mem _ hq0⟩, ht, ?_⟩
          simp [get_current_portfolio_value, hq, hgc]

/-- Claim C3 witness: on the concrete environment `envA` and the holdings
`{AAPL: 10}` every quote lookup succeeds and the valuation returns the
exact sum 150 * 10 = 1500. -/
theorem claim_C3_witness :
    (∀ e ∈ ([("AAPL", (10 : ℤ))] : Portfolio), (envA.quoteMinute e.1).isSome = true) ∧
    get_current_portfolio_value envA [("AAPL", (10 : ℤ))] =
      Except.ok (valTotal envA [("AAPL", (10 : ℤ))]) := by
  have hall : ∀ e ∈ ([("AAPL", (10 : ℤ))] : Portfolio),
      (envA.quoteMinute e.1).isSome = true := by
    intro e he
    rcases List.mem_singleton.mp he with rfl
    simp [envA]
  exact ⟨hall, (claim_C3 envA [("AAPL", (10 : ℤ))]).2.1 hall⟩

/-- Claim C6: a sell of the entire held quantity of a symbol removes the
symbol's key from the holdings entirely: membership is false afterward,
the key is never left present with value 0. -/
theorem claim_C6 (env : Env) (s : AppState) (ticker : String) (q : ℤ) (p : ℚ)
    (hq : env.quoteDaily (pyUpper ticker) = some p)
    (hmem : pfMem s.portfolio (pyUpper ticker) = true)
    (hall : pfGetD s.portfolio (pyUpper ticker) 0 = q) :
    pfMem (sell_stock env s ticker q).2.portfolio (pyUpper ticker) = false := by
  have hc : ¬ (pfMem s.portfolio (pyUpper ticker) = false ∨
      pfGetD s.portfolio (pyUpper ticker) 0 < q) := by
    rintro (h | h)
    · rw [hmem] at h; exact absurd h (by simp)
    · rw [hall] at h; exact lt_irrefl _ h
  have hz : pfGetD s.portfolio (pyUpper ticker) 0 - q = 0 := by
    rw [hall]; ring
  simp only [sell_stock]
  rw [if_neg hc, hq]
  simp only [hz, if_pos rfl]
  cases hv : get_current_portfolio_value env
      (pfDel (pfSet s.portfolio (pyUpper ticker) 0) (pyUpper ticker)) with
  | error err => simp [hv, pfMem_pfDel_self]
  | ok tv => simp [hv, pfMem_pfDel_self]

/-- Claim C6 witness: selling all 5 held shares of BAD from `stateB` (the
daily quote succeeding at price 7) leaves a holdings dict in which BAD is
no longer a key. -/
theorem claim_C6_witness :
    pfMem (sell_stock
      { dataFiles := fun _ => none,
        quoteDaily := fun _ => some 7,
        quoteMinute := fun _ => none } stateB "BAD" 5).2.portfolio (pyUpper "BAD") = false := by
  refine claim_C6 _ stateB "BAD" 5 7 rfl ?_ ?_
  · decide
  · decide

/-- Claim C7: `sell_stock` fails with InsufficientShares exactly when the
uppercased ticker is absent from the holdings or the held quantity is
smaller than the requested quantity. -/
theorem claim_C7 (env : Env) (s : AppState) (ticker : String) (quantity : ℤ) :
    (sell_stock env s ticker quantity).1 = Except.error Err.insufficientShares ↔
      (pfMem s.portfolio (pyUpper ticker) = false ∨
       pfGetD s.portfolio (pyUpper ticker) 0 < quantity) := by
  simp only [sell_stock]
  by_cases hc : pfMem s.portfolio (pyUpper ticker) = false ∨
      pfGetD s.portfolio (pyUpper ticker) 0 < quantity
  · rw [if_pos hc]
    exact iff_of_true rfl hc
  · rw [if_neg hc]
    cases hq : env.quoteDaily (pyUpper ticker) with
    | none => exact iff_of_false (by simp) hc
    | some p =>
      cases hv : get_current_portfolio_value env
          (if pfGetD s.portfolio (pyUpper ticker) 0 - quantity = 0 then
            pfDel (pfSet s.portfolio (pyUpper ticker)
              (pfGetD s.portfolio (pyUpper ticker) 0 - quantity)) (pyUpper ticker)
          else pfSet s.portfolio (pyUpper ticker)
            (pfGetD s.portfolio (pyUpper ticker) 0 - quantity)) with
      | error err =>
        rcases gcpv_error_notFound hv with ⟨t0, rfl⟩
        simp only [hv]
        exact iff_of_false (by simp) hc
      | ok tv =>
        simp only [hv]
        exact iff_of_false (by simp) hc

theorem pfGetD_of_not_mem {pf : Portfolio} {t : String} {d : ℤ}
    (h : pfMem pf t = false) : pfGetD pf t d = d := by
  induction pf with
  | nil => rfl
  | cons x rest ih =>
    unfold pfMem at h
    rw [Bool.or_eq_false_iff] at h
    unfold pfGetD
    rw [if_neg (by simp [h.1]), ih h.2]

theorem hU_AAPL : pyUpper "AAPL" = "AAPL" := by decide

theorem hU_MSFT : pyUpper "MSFT" = "MSFT" := by decide

theorem hU_BAD : pyUpper "BAD" = "BAD" := by decide

theorem buyA_eval : buy_stock envA stateA "AAPL" 10 =
    (Except.ok (998500, [("AAPL", (10 : ℤ))], 1500),
     { start_capital := 998500, portfolio := [("AAPL", (10 : ℤ))],
       store := save_portfolio 998500 [("AAPL", (10 : ℤ))] }) := by
  simp only [buy_stock, hU_AAPL]
  norm_num [envA, stateA, pfGetD, pfSet, get_current_portfolio_value,
    save_portfolio, encodeRecord, pfToJson]

theorem buyA0_eval : buy_stock envA stateA "AAPL" 0 =
    (Except.ok (1000000, [("AAPL", (0 : ℤ))], 0),
     { start_capital := 1000000, portfolio := [("AAPL", (0 : ℤ))],
       store := save_portfolio 1000000 [("AAPL", (0 : ℤ))] }) := by
  simp only [buy_stock, hU_AAPL]
  norm_num [envA, stateA, pfGetD, pfSet, get_current_portfolio_value,
    save_portfolio, encodeRecord, pfToJson]

theorem buyAneg_eval : buy_stock envA stateA "AAPL" (-5) =
    (Except.ok (1000750, [("AAPL", (-5 : ℤ))], -750),
     { start_capital := 1000750, portfolio := [("AAPL", (-5 : ℤ))],
       store := save_portfolio 1000750 [("AAPL", (-5 : ℤ))] }) := by
  simp only [buy_stock, hU_AAPL]
  norm_num [envA, stateA, pfGetD, pfSet, get_current_portfolio_value,
    save_portfolio, encodeRecord, pfToJson]

theorem str_BAD_ne_AAPL : ("BAD" = "AAPL") = False := eq_false (by decide)

theorem buyB_eval : buy_stock envB stateB "AAPL" 10 =
    (Except.error (Err.notFound "BAD"),
     { start_capital := 998500, portfolio := [("BAD", (5 : ℤ)), ("AAPL", (10 : ℤ))],
       store := save_portfolio 998500 [("BAD", (5 : ℤ)), ("AAPL", (10 : ℤ))] }) := by
  simp only [buy_stock, hU_AAPL]
  norm_num [envB, stateB, pfGetD, pfSet, get_current_portfolio_value,
    save_portfolio, encodeRecord, pfToJson, str_BAD_ne_AAPL]

theorem buyC_eval : buy_stock envA stateC "AAPL" 10 =
    (Except.error Err.insufficientFunds, stateC) := by
  simp only [buy_stock, hU_AAPL]
  norm_num [envA, stateC]

theorem buy_preserves_wf (env : Env) (s : AppState) (ticker : String) (q : ℤ)
    (hnn : nonnegPrices env) (hwf : wfLedger s) (hq : 0 < q) :
    wfLedger (buy_stock env s ticker q).2 := by
  cases hf : env.dataFiles (pyUpper ticker) with
  | none => simpa [buy_stock, hf] using hwf
  | some closes =>
    cases hl : closes.getLast? with
    | none => simpa [buy_stock, hf, hl] using hwf
    | some p =>
      simp only [buy_stock, hf, hl]
      by_cases hcost : p * (q : ℚ) > s.start_capital
      · rw [if_pos hcost]; exact hwf
      · rw [if_neg hcost]
        have hs1 : wfLedger
            { start_capital := s.start_capital - p * (q : ℚ),
              portfolio := pfSet s.portfolio (pyUpper ticker)
                (pfGetD s.portfolio (pyUpper ticker) 0 + q),
              store := save_portfolio (s.start_capital - p * (q : ℚ))
                (pfSet s.portfolio (pyUpper ticker)
                  (pfGetD s.portfolio (pyUpper ticker) 0 + q)) } := by
          constructor
          · have := not_lt.mp hcost
            simp only []
            linarith
          · intro e he
            rcases mem_pfSet he with rfl | he'
            · have hnn0 := pfGetD_nonneg (pyUpper ticker) hwf.2
              simp only []
              omega
            · exact hwf.2 e he'
        cases hv : get_current_portfolio_value env
            (pfSet s.portfolio (pyUpper ticker)
              (pfGetD s.portfolio (pyUpper ticker) 0 + q)) with
        | error err => exact hs1
        | ok tv => exact hs1

theorem sell_preserves_wf (env : Env) (s : AppState) (ticker : String) (q : ℤ)
    (hnn : nonnegPrices env) (hwf : wfLedger s) (hq : 0 < q) :
    wfLedger (sell_stock env s ticker q).2 := by
  simp only [sell_stock]
  by_cases hc : pfMem s.portfolio (pyUpper ticker) = false ∨
      pfGetD s.portfolio (pyUpper ticker) 0 < q
  · rw [if_pos hc]; exact hwf
  · rw [if_neg hc]
    push_neg at hc
    cases hquote : env.quoteDaily (pyUpper ticker) with
    | none => exact hwf
    | some p =>
      have hp : 0 ≤ p := hnn.1 _ _ hquote
      have hrev : 0 ≤ p * (q : ℚ) := by positivity
      have hge : q ≤ pfGetD s.portfolio (pyUpper ticker) 0 := hc.2
      have hs1 : wfLedger
          { start_capital := s.start_capital + p * (q : ℚ),
            portfolio := if pfGetD s.portfolio (pyUpper ticker) 0 - q = 0 then
                pfDel (pfSet s.portfolio (pyUpper ticker)
                  (pfGetD s.portfolio (pyUpper ticker) 0 - q)) (pyUpper ticker)
              else pfSet s.portfolio (pyUpper ticker)
                (pfGetD s.portfolio (pyUpper ticker) 0 - q),
            store := save_portfolio (s.start_capital + p * (q : ℚ))
              (if pfGetD s.portfolio (pyUpper ticker) 0 - q = 0 then
                  pfDel (pfSet s.portfolio (pyUpper ticker)
                    (pfGetD s.portfolio (pyUpper ticker) 0 - q)) (pyUpper ticker)
                else pfSet s.portfolio (pyUpper ticker)
                  (pfGetD s.portfolio (pyUpper ticker) 0 - q)) } := by
        constructor
        · simp only []
          linarith [hwf.1]
        · intro e he
          simp only [] at he
          by_cases hz : pfGetD s.portfolio (pyUpper ticker) 0 - q = 0
          · rw [if_pos hz] at he
            have he1 := (List.mem_filter.mp he).1
            have he2 := (List.mem_filter.mp he).2
            rcases mem_pfSet he1 with rfl | he'
            · simp at he2
            · exact hwf.2 e he'
          · rw [if_neg hz] at he
            rcases mem_pfSet he with rfl | he'
            · simp only []
              omega
            · exact hwf.2 e he'
      cases hv : get_current_portfolio_value env
          (if pfGetD s.portfolio (pyUpper ticker) 0 - q = 0 then
              pfDel (pfSet s.portfolio (pyUpper ticker)
                (pfGetD s.portfolio (pyUpper ticker) 0 - q)) (pyUpper ticker)
            else pfSet s.portfolio (pyUpper ticker)
              (pfGetD s.portfolio (pyUpper ticker) 0 - q)) with
      | error err => exact hs1
      | ok tv => exact hs1

/-- Claim C2 (amended): for every sequence of buy/sell requests in which
each request's quantity is strictly positive, run against price oracles
that never quote a negative close, starting from a well-formed Ledger, the
resulting state satisfies cash >= 0 and every holdings value is strictly
positive.  (The original claim, quantifying over all successful calls, is
false: the handlers never validate quantity, so a successful buy with
quantity 0 creates a zero holdings entry — see the counterexample.) -/
theorem claim_C2 (env : Env) (s : AppState) (ops : List TradeOp)
    (hnn : nonnegPrices env) (hwf : wfLedger s)
    (hpos : ∀ op ∈ ops, 0 < opQuantity op) :
    wfLedger (runOps env s ops) := by
  induction ops generalizing s with
  | nil => exact hwf
  | cons op rest ih =>
    show wfLedger (runOps env (applyOp env s op) rest)
    have h1 : wfLedger (applyOp env s op) := by
      cases op with
      | buyOp t q =>
        exact buy_preserves_wf env s t q hnn hwf (hpos _ (List.mem_cons_self _ _))
      | sellOp t q =>
        exact sell_preserves_wf env s t q hnn hwf (hpos _ (List.mem_cons_self _ _))
    exact ih (applyOp env s op) h1 (fun op' hop' => hpos op' (List.mem_cons_of_mem _ hop'))

/-- Claim C2 counterexample: from the well-formed fresh Ledger, the single
buy call `buy("AAPL", 0)` SUCCEEDS (it returns an ok payload) yet the
resulting holdings contain the entry ("AAPL", 0), whose value is not a
strictly positive integer — refuting the claim as stated. -/
theorem claim_C2_counterexample :
    wfLedger stateA ∧
    (buy_stock envA stateA "AAPL" 0).1 =
      Except.ok (1000000, [("AAPL", (0 : ℤ))], 0) ∧
    (runOps envA stateA [TradeOp.buyOp "AAPL" 0]).portfolio = [("AAPL", (0 : ℤ))] := by
  refine ⟨⟨by norm_num [stateA], by simp [stateA]⟩, ?_, ?_⟩
  · rw [buyA0_eval]
  · simp only [runOps, applyOp]
    rw [buyA0_eval]

/-- Claim C2 witness: the amended invariant applied to the concrete
environment `envA` (all quotes non-negative), the fresh ledger and the
one-request sequence `[buy("AAPL", 10)]`. -/
theorem claim_C2_witness :
    nonnegPrices envA ∧ wfLedger (runOps envA stateA [TradeOp.buyOp "AAPL" 10]) := by
  have hnn : nonnegPrices envA := by
    constructor
    · intro t p h
      simp only [envA] at h
      by_cases ht : t = "AAPL"
      · rw [if_pos ht] at h
        injection h with h'
        rw [← h']
        norm_num
      · rw [if_neg ht] at h
        cases h
    · intro t closes c h hc
      simp only [envA] at h
      by_cases ht : t = "AAPL"
      · rw [if_pos ht] at h
        injection h with h'
        rw [← h'] at hc
        rcases List.mem_singleton.mp hc with rfl
        norm_num
      · rw [if_neg ht] at h
        cases h
  have hwf : wfLedger stateA := ⟨by norm_num [stateA], by simp [stateA]⟩
  refine ⟨hnn, claim_C2 envA stateA [TradeOp.buyOp "AAPL" 10] hnn hwf ?_⟩
  intro op hop
  rcases List.mem_singleton.mp hop with rfl
  norm_num [opQuantity]

/-- Claim C1 (amended): every buy or sell failure raised BEFORE the commit
point — missing cached history, empty cached data, insufficient funds on
buy; insufficient shares or a failed live download on sell — leaves the
Ledger (cash, holdings and persisted record) exactly as it was; in
particular a buy rejected with InsufficientFunds changes nothing.  (The
original unrestricted claim is false: the handlers persist the mutation
and only then run the portfolio valuation, so a valuation failure returns
an error on an already-mutated, already-persisted Ledger — see the
counterexample.) -/
theorem claim_C1 (env : Env) (s : AppState) (ticker : String) (quantity : ℤ) :
    (∀ e, (buy_stock env s ticker quantity).1 = Except.error e →
       e = Err.notFetched ∨ e = Err.tickerNotFound ∨ e = Err.insufficientFunds →
       (buy_stock env s ticker quantity).2 = s) ∧
    (∀ e, (sell_stock env s ticker quantity).1 = Except.error e →
       e = Err.insufficientShares ∨ e = Err.indexError →
       (sell_stock env s ticker quantity).2 = s) := by
  constructor
  · intro e he hkind
    cases hf : env.dataFiles (pyUpper ticker) with
    | none => simp [buy_stock, hf]
    | some closes =>
      cases hl : closes.getLast? with
      | none => simp [buy_stock, hf, hl]
      | some p =>
        simp only [buy_stock, hf, hl] at he ⊢
        by_cases hcost : p * (quantity : ℚ) > s.start_capital
        · rw [if_pos hcost]
        · rw [if_neg hcost] at he ⊢
          cases hv : get_current_portfolio_value env
              (pfSet s.portfolio (pyUpper ticker)
                (pfGetD s.portfolio (pyUpper ticker) 0 + quantity)) with
          | error err =>
            rw [hv] at he
            rcases gcpv_error_notFound hv with ⟨t0, rfl⟩
            have he' : Err.notFound t0 = e := by simpa using he
            rcases hkind with rfl | rfl | rfl <;> simp at he'
          | ok tv =>
            rw [hv] at he
            simp at he
  · intro e he hkind
    simp only [sell_stock] at he ⊢
    by_cases hc : pfMem s.portfolio (pyUpper ticker) = false ∨
        pfGetD s.portfolio (pyUpper ticker) 0 < quantity
    · rw [if_pos hc]
    · rw [if_neg hc] at he ⊢
      cases hquote : env.quoteDaily (pyUpper ticker) with
      | none => rfl
      | some p =>
        rw [hquote] at he
        cases hv : get_current_portfolio_value env
            (if pfGetD s.portfolio (pyUpper ticker) 0 - quantity = 0 then
                pfDel (pfSet s.portfolio (pyUpper ticker)
                  (pfGetD s.portfolio (pyUpper ticker) 0 - quantity)) (pyUpper ticker)
              else pfSet s.portfolio (pyUpper ticker)
                (pfGetD s.portfolio (pyUpper ticker) 0 - quantity)) with
        | error err =>
          rw [hv] at he
          rcases gcpv_error_notFound hv with ⟨t0, rfl⟩
          have he' : Err.notFound t0 = e := by simpa using he
          rcases hkind with rfl | rfl <;> simp at he'
        | ok tv =>
          rw [hv] at he
          simp at he

/-- Claim C1 counterexample: from the Ledger holding 5 BAD with cash
1000000, `buy("AAPL", 10)` at cached close 150 passes every pre-check,
debits the cash, adds the holding and persists — and then the valuation of
the held symbol BAD fails, so the call returns an error while the Ledger
(in memory and in the persisted record) is left at cash 998500 with the
new AAPL entry: an error outcome with a changed Ledger. -/
theorem claim_C1_counterexample :
    (buy_stock envB stateB "AAPL" 10).1 = Except.error (Err.notFound "BAD") ∧
    (buy_stock envB stateB "AAPL" 10).2.start_capital = 998500 ∧
    stateB.start_capital = 1000000 ∧
    (buy_stock envB stateB "AAPL" 10).2.store =
      save_portfolio 998500 [("BAD", (5 : ℤ)), ("AAPL", (10 : ℤ))] ∧
    stateB.store = none := by
  refine ⟨?_, ?_, rfl, ?_, rfl⟩ <;> rw [buyB_eval]

/-- Claim C1 witness: the amended atomicity applied at a concrete
InsufficientFunds rejection — `buy("AAPL", 10)` at close 150 against cash
100 fails and returns exactly the starting state. -/
theorem claim_C1_witness :
    (buy_stock envA stateC "AAPL" 10).1 = Except.error Err.insufficientFunds ∧
    (buy_stock envA stateC "AAPL" 10).2 = stateC := by
  have h1 : (buy_stock envA stateC "AAPL" 10).1 = Except.error Err.insufficientFunds := by
    rw [buyC_eval]
  exact ⟨h1, (claim_C1 envA stateC "AAPL" 10).1 Err.insufficientFunds h1
    (Or.inr (Or.inr rfl))⟩

/-- Claim C4 (amended): neither buy nor sell validates the quantity; a
call with non-positive quantity is NOT rejected.  A buy with quantity
q <= 0 whose other steps succeed (cached non-empty history with a
non-negative last close, non-negative cash, valuation of the updated
holdings succeeding) completes the whole mutation: it returns ok, charges
cost p*q (a refund when q < 0) and writes the holdings entry. -/
theorem claim_C4 (env : Env) (s : AppState) (ticker : String) (q : ℤ)
    (closes : List ℚ) (p : ℚ) (tv : ℚ)
    (hfile : env.dataFiles (pyUpper ticker) = some closes)
    (hlast : closes.getLast? = some p)
    (hp : 0 ≤ p) (hcap : 0 ≤ s.start_capital) (hq : q ≤ 0)
    (hval : get_current_portfolio_value env
      (pfSet s.portfolio (pyUpper ticker)
        (pfGetD s.portfolio (pyUpper ticker) 0 + q)) = Except.ok tv) :
    (buy_stock env s ticker q).1 =
      Except.ok (s.start_capital - p * (q : ℚ),
        pfSet s.portfolio (pyUpper ticker)
          (pfGetD s.portfolio (pyUpper ticker) 0 + q), tv) ∧
    (buy_stock env s ticker q).2.portfolio =
      pfSet s.portfolio (pyUpper ticker) (pfGetD s.portfolio (pyUpper ticker) 0 + q) := by
  have hq' : (q : ℚ) ≤ 0 := by exact_mod_cast hq
  have hcost : ¬ (p * (q : ℚ) > s.start_capital) := by
    have : p * (q : ℚ) ≤ 0 := mul_nonpos_iff.mpr (Or.inl ⟨hp, hq'⟩)
    linarith
  simp only [buy_stock, hfile, hlast]
  rw [if_neg hcost, hval]
  exact ⟨rfl, rfl⟩

/-- Claim C4 counterexample: `buy("AAPL", -5)` — a strictly negative
quantity — is not rejected: it SUCCEEDS, mints cash (100750 > 1000000
start... cash rises to 1000750) and writes a negative holdings entry to
the persisted record, refuting "rejected before any state is touched". -/
theorem claim_C4_counterexample :
    (buy_stock envA stateA "AAPL" (-5)).1 =
      Except.ok (1000750, [("AAPL", (-5 : ℤ))], -750) ∧
    (buy_stock envA stateA "AAPL" (-5)).2.portfolio = [("AAPL", (-5 : ℤ))] ∧
    stateA.portfolio = [] ∧ stateA.start_capital = 1000000 := by
  refine ⟨?_, ?_, rfl, rfl⟩ <;> rw [buyAneg_eval]

/-- Claim C4 witness: the amended theorem applied at quantity 0 on the
fresh ledger: the call passes every check and returns ok. -/
theorem claim_C4_witness :
    ((0 : ℤ) ≤ 0) ∧
    (buy_stock envA stateA "AAPL" 0).1 =
      Except.ok (stateA.start_capital - 150 * ((0 : ℤ) : ℚ),
        pfSet stateA.portfolio (pyUpper "AAPL")
          (pfGetD stateA.portfolio (pyUpper "AAPL") 0 + 0), 0) := by
  have hfile : envA.dataFiles (pyUpper "AAPL") = some [150] := by
    rw [hU_AAPL]
    rfl
  have hlast : ([150] : List ℚ).getLast? = some 150 := rfl
  have hval : get_current_portfolio_value envA
      (pfSet stateA.portfolio (pyUpper "AAPL")
        (pfGetD stateA.portfolio (pyUpper "AAPL") 0 + 0)) = Except.ok 0 := by
    rw [hU_AAPL]
    simp [stateA, pfSet, pfGetD, get_current_portfolio_value, envA]
  exact ⟨le_refl 0,
    (claim_C4 envA stateA "AAPL" 0 [150] 150 0 hfile hlast (by norm_num)
      (by norm_num [stateA]) (le_refl 0) hval).1⟩

/-- Claim C5: every successful buy of q shares at the latest cached close
p, from starting cash C, leaves cash exactly C - p*q, raises the held
quantity of the (uppercased) symbol by exactly q (creating the entry when
the symbol was absent), and persists exactly the updated Ledger. -/
theorem claim_C5 (env : Env) (s : AppState) (ticker : String) (q : ℤ)
    (closes : List ℚ) (p : ℚ) (pay : ℚ × Portfolio × ℚ) (s' : AppState)
    (hfile : env.dataFiles (pyUpper ticker) = some closes)
    (hlast : closes.getLast? = some p)
    (hbuy : buy_stock env s ticker q = (Except.ok pay, s')) :
    s'.start_capital = s.start_capital - p * (q : ℚ) ∧
    pfGetD s'.portfolio (pyUpper ticker) 0 =
      pfGetD s.portfolio (pyUpper ticker) 0 + q ∧
    pfMem s'.portfolio (pyUpper ticker) = true ∧
    s'.store = save_portfolio s'.start_capital s'.portfolio := by
  simp only [buy_stock, hfile, hlast] at hbuy
  by_cases hcost : p * (q : ℚ) > s.start_capital
  · rw [if_pos hcost] at hbuy
    simp at hbuy
  · rw [if_neg hcost] at hbuy
    cases hv : get_current_portfolio_value env
        (pfSet s.portfolio (pyUpper ticker)
          (pfGetD s.portfolio (pyUpper ticker) 0 + q)) with
    | error err =>
      rw [hv] at hbuy
      simp at hbuy
    | ok tv =>
      rw [hv] at hbuy
      injection hbuy with h1 h2
      subst h2
      exact ⟨rfl, pfGetD_pfSet_self _ _ _ _, pfMem_pfSet_self _ _ _, rfl⟩

/-- Claim C5 witness: the conservation law applied to the concrete
successful `buy("AAPL", 10)` at close 150 from cash 1000000. -/
theorem claim_C5_witness :
    buy_stock envA stateA "AAPL" 10 =
      (Except.ok (998500, [("AAPL", (10 : ℤ))], 1500),
       { start_capital := 998500, portfolio := [("AAPL", (10 : ℤ))],
         store := save_portfolio 998500 [("AAPL", (10 : ℤ))] }) ∧
    (AppState.mk 998500 [("AAPL", (10 : ℤ))]
        (save_portfolio 998500 [("AAPL", (10 : ℤ))])).start_capital =
      stateA.start_capital - 150 * ((10 : ℤ) : ℚ) := by
  have hfile : envA.dataFiles (pyUpper "AAPL") = some [150] := by
    rw [hU_AAPL]
    rfl
  have hlast : ([150] : List ℚ).getLast? = some 150 := rfl
  exact ⟨buyA_eval,
    (claim_C5 envA stateA "AAPL" 10 [150] 150 (998500, [("AAPL", (10 : ℤ))], 1500)
      (AppState.mk 998500 [("AAPL", (10 : ℤ))] (save_portfolio 998500 [("AAPL", (10 : ℤ))]))
      hfile hlast buyA_eval).1⟩

/-- Claim C10: for a symbol with a cached, non-empty historical data file,
non-negative cash, and a holdings valuation of the updated dict that
succeeds, `buy(symbol, 0)` succeeds, leaves cash unchanged, and — when the
symbol was absent — creates a holdings entry with value 0 which is then
persisted (an edge case the spec does not state). -/
theorem claim_C10 (env : Env) (s : AppState) (ticker : String)
    (closes : List ℚ) (p : ℚ) (tv : ℚ)
    (hfile : env.dataFiles (pyUpper ticker) = some closes)
    (hlast : closes.getLast? = some p)
    (hcap : 0 ≤ s.start_capital)
    (hval : get_current_portfolio_value env
      (pfSet s.portfolio (pyUpper ticker)
        (pfGetD s.portfolio (pyUpper ticker) 0 + 0)) = Except.ok tv) :
    (∃ out, (buy_stock env s ticker 0).1 = Except.ok out) ∧
    (buy_stock env s ticker 0).2.start_capital = s.start_capital ∧
    (pfMem s.portfolio (pyUpper ticker) = false →
       pfGetD (buy_stock env s ticker 0).2.portfolio (pyUpper ticker) 0 = 0 ∧
       pfMem (buy_stock env s ticker 0).2.portfolio (pyUpper ticker) = true) ∧
    (buy_stock env s ticker 0).2.store =
      save_portfolio (buy_stock env s ticker 0).2.start_capital
        (buy_stock env s ticker 0).2.portfolio := by
  have hcost : ¬ (p * ((0 : ℤ) : ℚ) > s.start_capital) := by
    push_cast
    simp only [mul_zero]
    exact not_lt.mpr hcap
  simp only [buy_stock, hfile, hlast]
  rw [if_neg hcost, hval]
  refine ⟨⟨(s.start_capital - p * ((0 : ℤ) : ℚ),
      pfSet s.portfolio (pyUpper ticker) (pfGetD s.portfolio (pyUpper ticker) 0 + 0),
      tv), rfl⟩, by push_cast; ring, ?_, rfl⟩
  intro habs
  constructor
  · rw [pfGetD_pfSet_self, pfGetD_of_not_mem habs]
    ring
  · exact pfMem_pfSet_self _ _ _

/-- Claim C10 witness: the concrete `buy("AAPL", 0)` on the fresh ledger
leaves the cash at 1000000. -/
theorem claim_C10_witness :
    (0 : ℚ) ≤ stateA.start_capital ∧
    (buy_stock envA stateA "AAPL" 0).2.start_capital = stateA.start_capital := by
  have hfile : envA.dataFiles (pyUpper "AAPL") = some [150] := by
    rw [hU_AAPL]
    rfl
  have hlast : ([150] : List ℚ).getLast? = some 150 := rfl
  have hcap : (0 : ℚ) ≤ stateA.start_capital := by norm_num [stateA]
  have hval : get_current_portfolio_value envA
      (pfSet stateA.portfolio (pyUpper "AAPL")
        (pfGetD stateA.portfolio (pyUpper "AAPL") 0 + 0)) = Except.ok 0 := by
    rw [hU_AAPL]
    simp [stateA, pfSet, pfGetD, get_current_portfolio_value, envA]
  exact ⟨hcap, (claim_C10 envA stateA "AAPL" [150] 150 0 hfile hlast hcap hval).2.1⟩

/-- Claim C8 (amended): when `portfolio.json` is missing, or present but
not decodable as JSON, `load_portfolio` returns the default Ledger
(cash 1000000, empty holdings) and immediately persists that default, and
in those two cases it never raises; when the file holds a well-formed
record it returns that record and leaves the file untouched.  (The
original claim is false for content that decodes to a non-object JSON
value: there `saved_data.get` raises AttributeError, which is not caught —
see the counterexample.) -/
theorem claim_C8 (file : FileState) :
    ((file = none ∨ ∃ e, file = some (Except.error e)) →
       load_portfolio file =
         Except.ok ((Json.num 1000000, Json.obj []), save_portfolio 1000000 [])) ∧
    (∀ c pf, file = some (Except.ok (encodeRecord c pf)) →
       load_portfolio file = Except.ok ((Json.num c, pfToJson pf), file)) := by
  constructor
  · rintro (rfl | ⟨e, rfl⟩) <;> rfl
  · rintro c pf rfl
    simp [load_portfolio, encodeRecord, jsonGetD]

/-- Claim C8 counterexample: a `portfolio.json` holding the decodable JSON
value `[]` — malformed as a Ledger record — makes `load_portfolio` raise
AttributeError instead of returning (and persisting) the default Ledger:
the "never fails" half of the claim is false. -/
theorem claim_C8_counterexample :
    load_portfolio (some (Except.ok (Json.arr []))) =
      Except.error Err.attributeError := rfl

/-- Claim C8 witness: the amended self-healing behaviour applied to the
missing-file case. -/
theorem claim_C8_witness :
    load_portfolio none =
      Except.ok ((Json.num 1000000, Json.obj []), save_portfolio 1000000 []) :=
  (claim_C8 none).1 (Or.inl rfl)

theorem decodeFields_pfToJson (pf : Portfolio) :
    decodeFields (pf.map (fun e => (e.1, Json.num (e.2 : ℚ)))) = some pf := by
  induction pf with
  | nil => rfl
  | cons x rest ih =>
    have hden : ((x.2 : ℚ)).den = 1 := by simp
    have hnum : ((x.2 : ℚ)).num = x.2 := by simp
    simp [decodeFields, decodeQty, hden, hnum, ih]

/-- Claim C9: for every well-formed Ledger (cash, uppercase symbols,
positive integer quantities, distinct keys), saving and then loading
returns exactly the persisted pair, and its typed reading is the original
Ledger: the persisted record format round-trips exactly. -/
theorem claim_C9 (c : ℚ) (pf : Portfolio) (hwf : wfRecord c pf) :
    load_portfolio (save_portfolio c pf) =
      Except.ok ((Json.num c, pfToJson pf), save_portfolio c pf) ∧
    decodeCash (Json.num c) = some c ∧
    decodePortfolio (pfToJson pf) = some pf := by
  refine ⟨?_, rfl, ?_⟩
  · simp [save_portfolio, load_portfolio, encodeRecord, jsonGetD]
  · simp [decodePortfolio, pfToJson, decodeFields_pfToJson]

/-- Claim C9 witness: the round-trip at the concrete well-formed Ledger
{cash 998500, holdings {AAPL: 10}}. -/
theorem claim_C9_witness :
    wfRecord 998500 [("AAPL", (10 : ℤ))] ∧
    load_portfolio (save_portfolio 998500 [("AAPL", (10 : ℤ))]) =
      Except.ok ((Json.num 998500, pfToJson [("AAPL", (10 : ℤ))]),
        save_portfolio 998500 [("AAPL", (10 : ℤ))]) ∧
    decodePortfolio (pfToJson [("AAPL", (10 : ℤ))]) = some [("AAPL", (10 : ℤ))] := by
  have hwf : wfRecord 998500 [("AAPL", (10 : ℤ))] := by
    refine ⟨by norm_num, ?_, by simp⟩
    intro e he
    rcases List.mem_singleton.mp he with rfl
    exact ⟨by norm_num, hU_AAPL⟩
  have h := claim_C9 998500 [("AAPL", (10 : ℤ))] hwf
  exact ⟨hwf, h.1, h.2.2⟩

/-- Claim C7 witness: the characterisation applied at Scenario 4 — selling
1 MSFT against empty holdings fails with InsufficientShares. -/
theorem claim_C7_witness :
    (sell_stock envA stateA "MSFT" 1).1 = Except.error Err.insufficientShares :=
  (claim_C7 envA stateA "MSFT" 1).mpr (Or.inl (by rw [hU_MSFT]; rfl))
